import Mathlib

/-!
Verification of the OTLP log-viewer pipeline (`fastapi_viewer.py`):
the per-record normalizer `parse_protobuf_logs`, the gzip-aware ingest
endpoint `decode_protobuf_logs`, and the bounded in-memory `LogStorage`
with its function-name index and query methods.

Modelling conventions:
* Python attribute values (the results of `extract_attribute_value` /
  `extract_any_value`) are modelled by the scalar type `PVal`; attribute
  mappings are association lists (`PDict`) with unique keys, read through
  `List.lookup`.  Array- and kvlist-valued attributes are outside the model.
* The protobuf wire decoding (lines 158-184 of the source) is modelled as
  already done: a `DecodedRecord` carries the extracted per-record fields
  together with the resource/scope context each record inherits.
* External library calls (`json.loads`, timestamp formatting,
  `gzip.decompress`, `ParseFromString`) are passed in as explicit function
  parameters; failure of such a call is `Option.none` (a raised exception).
* `uuid.uuid4()` is modelled by a fresh counter `next_id` carried in the
  store: all generated ids are distinct, which is the only property used.
-/

namespace Otel

/-- A decoded (scalar) attribute value, as produced by
`extract_attribute_value` / `extract_any_value` in `fastapi_viewer.py`. -/
inductive PVal where
  | str (s : String)
  | int (n : Int)
  | float (q : ℚ)
  | bool (b : Bool)
deriving DecidableEq, Repr, Inhabited

/-- A Python `dict` of decoded values, modelled as an association list with
unique keys. -/
abbrev PDict := List (String × PVal)

/-- Python dict lookup `d.get(k)`. -/
def dictGet (d : PDict) (k : String) : Option PVal := d.lookup k

/-- Python dict lookup with default, `d.get(k, default)`. -/
def dictGetD (d : PDict) (k : String) (v : PVal) : PVal := (d.lookup k).getD v

/-- One log record after protobuf wire decoding (lines 158-184 of
`fastapi_viewer.py`), flattened together with the resource attributes and
scope of its enclosing groups.  `body = none` models an unset protobuf
`body` field, for which line 179 leaves the Python string `""`. -/
structure DecodedRecord where
  time_unix_nano : Nat
  severity_text : String
  severity_number : Int
  body : Option PVal
  log_attributes : PDict
  scope_name : String
  scope_attributes : PDict
  resource_attributes : PDict
  trace_id : Option String
  span_id : Option String
deriving DecidableEq, Repr, Inhabited

/-- External collaborators of `parse_protobuf_logs`: `json.loads`
(restricted to JSON objects; `none` models a raised `JSONDecodeError`),
`datetime.fromtimestamp(...).isoformat()` and
`datetime.utcnow().isoformat()`. -/
structure Ctx where
  jsonLoads : String → Option PDict
  isoOfNano : Nat → String
  nowIso : String

/-- Lines 186-192: read `log_attributes['otel.log_data']` (default `{}`);
if it is a string, `json.loads` it, falling back to `{}` on
`JSONDecodeError`.  A non-string scalar value is kept as-is by the source,
after which the `.get` calls of lines 196-206 raise `AttributeError`
(propagated as the batch-level `ValueError` of line 221): that is the
`none` case here. -/
def otelLogData (ctx : Ctx) (la : PDict) : Option PDict :=
  match dictGet la "otel.log_data" with
  | none => some []
  | some (.str s) => some ((ctx.jsonLoads s).getD [])
  | some _ => none

/-- The normalized per-record dictionary built at lines 194-214 of
`parse_protobuf_logs`. -/
structure ParsedLog where
  timestamp : String
  level : PVal
  function_name : PVal
  module' : PVal
  duration_ms : PVal
  status : PVal
  message : PVal
  args : Option PVal
  kwargs : Option PVal
  result : Option PVal
  error : Option PVal
  error_type : Option PVal
  severity_number : Int
  severity_text : String
  resource_attributes : PDict
  scope_attributes : PDict
  log_attributes : PDict
  trace_id : Option String
  span_id : Option String
deriving DecidableEq, Repr, Inhabited

/-- The per-record body of the loop at lines 172-216 of
`parse_protobuf_logs`.  Line 196 is the Python expression
`log_record.severity_text or otel_log_data.get('level', 'INFO')`:
the (truthy, i.e. non-empty) severity text wins over the structured level.
The scope name and the resource attributes are carried through but not
consulted for any fallback.  `none` models a raised exception (caught at
line 220 and re-raised as `ValueError` for the whole batch). -/
def parseRecord (ctx : Ctx) (r : DecodedRecord) : Option ParsedLog :=
  let timestamp :=
    if r.time_unix_nano ≠ 0 then ctx.isoOfNano r.time_unix_nano else ctx.nowIso
  match otelLogData ctx r.log_attributes with
  | none => none
  | some otel => some {
      timestamp := timestamp
      level := if r.severity_text ≠ "" then .str r.severity_text
               else dictGetD otel "level" (.str "INFO")
      function_name := dictGetD otel "function_name" (.str "unknown")
      module' := dictGetD otel "module" (.str "unknown")
      duration_ms := dictGetD otel "duration_ms" (.float 0)
      status := dictGetD otel "status" (.str "unknown")
      message := match r.body with | some v => v | none => .str ""
      args := dictGet otel "args"
      kwargs := dictGet otel "kwargs"
      result := dictGet otel "result"
      error := dictGet otel "error"
      error_type := dictGet otel "error_type"
      severity_number := r.severity_number
      severity_text := r.severity_text
      resource_attributes := r.resource_attributes
      scope_attributes := r.scope_attributes
      log_attributes := r.log_attributes
      trace_id := r.trace_id
      span_id := r.span_id }

/-- Model of `parse_protobuf_logs` over the flattened record sequence: each record is
normalized independently; any exception fails the whole batch (the
`try/except` of lines 151 and 220-221). -/
def parseProtobufLogs (ctx : Ctx) (rs : List DecodedRecord) : Option (List ParsedLog) :=
  rs.mapM (parseRecord ctx)

/-! ### The `POST /api/logs` endpoint (`decode_protobuf_logs`, lines 341-404) -/

/-- An HTTP ingest request: the two headers read at lines 348-349 and the
raw body bytes. -/
structure IngestRequest where
  content_type : String
  content_encoding : String
  body : List Nat
deriving DecidableEq, Repr

/-- Response of the ingest endpoint: the success payload of lines 389-395
(reduced to its two counters) or an `HTTPException` status. -/
inductive IngestResult where
  | ok (resource_logs_count : Nat) (total_log_records : Nat)
  | err (status : Nat)
deriving DecidableEq, Repr

/-- The parsed `ExportLogsServiceRequest`: resource-logs groups, each a list
of scope-logs groups, each a list of log records. -/
abbrev Envelope := List (List (List DecodedRecord))

/-- Body of `decode_protobuf_logs` inside the outer `try` (lines 347-400).
`gz` models `gzip.decompress` and `parsePB` models
`ExportLogsServiceRequest.ParseFromString`; `none` is a raised exception.
A gzip failure raises `HTTPException(400)` at line 363; a protobuf parse
failure raises `HTTPException(400)` at line 400. -/
def decodeInner (gz : List Nat → Option (List Nat))
    (parsePB : List Nat → Option Envelope)
    (req : IngestRequest) : Except Nat (Nat × Nat) := do
  let body := req.body
  let body ←
    if req.content_encoding = "gzip" then
      match gz body with
      | some b => Except.ok b
      | none => Except.error 400
    else Except.ok body
  match parsePB body with
  | some env =>
      Except.ok (env.length, (env.map (fun rl => (rl.map List.length).sum)).sum)
  | none => Except.error 400

/-- Endpoint `decode_protobuf_logs`: the outer `try/except Exception` of lines 346
and 402-404 catches every exception raised inside — including the
`HTTPException(400)`s of lines 363 and 400, since Starlette's
`HTTPException` subclasses `Exception` — and re-raises it as
`HTTPException(500)`. -/
def decodeProtobufLogs (gz : List Nat → Option (List Nat))
    (parsePB : List Nat → Option Envelope)
    (req : IngestRequest) : IngestResult :=
  match decodeInner gz parsePB req with
  | .ok (a, b) => .ok a b
  | .error _ => .err 500

/-! ### `LogStorage` (lines 36-81) and the pydantic `LogRecord` (lines 20-34) -/

/-- Pydantic coercion of a decoded value into a `str` field: only actual
strings validate (a non-string makes `LogRecord(...)` raise a
`ValidationError`, which is outside the normal — "well-formed" — path). -/
def PVal.pyStr : PVal → Option String
  | .str s => some s
  | _ => none

/-- Pydantic coercion of a decoded value into a `float` field: ints and
floats validate. -/
def PVal.pyFloat : PVal → Option ℚ
  | .int n => some (n : ℚ)
  | .float q => some q
  | _ => none

/-- Coercion of an optional value into an `Optional[str]` field. -/
def optPyStr : Option PVal → Option (Option String)
  | none => some none
  | some v => (v.pyStr).map some

/-- The stored `LogRecord` model (lines 20-34).  Ids are modelled as the
values of the store's fresh counter (see `LogStorage.next_id`). -/
structure LogRecordM where
  id : Nat
  timestamp : String
  level : String
  function_name : String
  module' : String
  duration_ms : ℚ
  status : String
  message : String
  args : Option String
  kwargs : Option PVal
  result : Option String
  error : Option String
  error_type : Option String
  raw_data : ParsedLog
deriving DecidableEq, Repr, Inhabited

/-- Lines 44-59: construction (and pydantic validation) of the `LogRecord`
stored by `add_log`.  The parsed dictionary always carries every key read
here, so the `.get` defaults of lines 46-52 never fire on the ingest path;
`none` models a `ValidationError`. -/
def mkRecord (i : Nat) (d : ParsedLog) : Option LogRecordM := do
  let level ← d.level.pyStr
  let fn ← d.function_name.pyStr
  let md ← d.module'.pyStr
  let dur ← d.duration_ms.pyFloat
  let status ← d.status.pyStr
  let message ← d.message.pyStr
  let args ← optPyStr d.args
  let result ← optPyStr d.result
  let error ← optPyStr d.error
  let error_type ← optPyStr d.error_type
  some { id := i, timestamp := d.timestamp, level := level, function_name := fn,
         module' := md, duration_ms := dur, status := status, message := message,
         args := args, kwargs := d.kwargs, result := result, error := error,
         error_type := error_type, raw_data := d }

/-- The function-name index: `defaultdict(list)` keyed by `function_name`,
modelled as an association list in key-creation order. -/
abbrev FnIndex := List (String × List LogRecordM)

/-- Reading a bucket: `logs_by_function.get(f, [])` (line 72), and the
contents `logs_by_function[f]` sees when the key exists. -/
def bucketGet (d : FnIndex) (f : String) : List LogRecordM := (d.lookup f).getD []

/-- Index update `logs_by_function[f].append(r)` (line 62): append into the bucket of
`f`, creating the bucket (`defaultdict`) when absent. -/
def bucketAppend (d : FnIndex) (f : String) (r : LogRecordM) : FnIndex :=
  match d with
  | [] => [(f, [r])]
  | (g, l) :: t => if g = f then (g, l ++ [r]) :: t else (g, l) :: bucketAppend t f r

/-- Index update `logs_by_function[f].remove(r)` (line 66): erase the first occurrence
of `r` from the bucket of `f`.  (`list.remove` raises `ValueError` when `r`
is absent; the store invariant proved below shows the eviction path always
finds it.) -/
def bucketErase (d : FnIndex) (f : String) (r : LogRecordM) : FnIndex :=
  match d with
  | [] => []
  | (g, l) :: t => if g = f then (g, l.erase r) :: t else (g, l) :: bucketErase t f r

/-- Store state `LogStorage` (lines 36-39) plus the fresh-id counter modelling
`uuid.uuid4()`. -/
structure LogStorage where
  logs : List LogRecordM
  logs_by_function : FnIndex
  next_id : Nat
deriving DecidableEq, Repr, Inhabited

/-- Constructor `LogStorage.__init__` (lines 37-39). -/
def initStorage : LogStorage := ⟨[], [], 0⟩

/-- Lines 61-66: append the freshly built record to the primary sequence
and to its function-name bucket; if the sequence now exceeds 1000 entries,
`pop(0)` the oldest record and remove it from its bucket.  The list is
nonempty in the eviction branch (a record was just appended), so `headI`
is exact. -/
def addRecord (st : LogStorage) (rec : LogRecordM) : LogStorage :=
  let logs1 := st.logs ++ [rec]
  let byf1 := bucketAppend st.logs_by_function rec.function_name rec
  if 1000 < logs1.length then
    let removed := logs1.headI
    ⟨logs1.tail, bucketErase byf1 removed.function_name removed, st.next_id + 1⟩
  else
    ⟨logs1, byf1, st.next_id + 1⟩

/-- Method `add_log` (lines 41-68): build the record under a fresh id, mutate the
two collections, return the id.  `none` is a pydantic `ValidationError`
raised at line 44, before any mutation. -/
def addLog (st : LogStorage) (d : ParsedLog) : Option (Nat × LogStorage) :=
  (mkRecord st.next_id d).map (fun rec => (st.next_id, addRecord st rec))

/-- One attempted `add_log` call, keeping only the store: a call that
raises a `ValidationError` leaves the store unchanged (the record is
validated before any mutation). -/
def addStep (st : LogStorage) (d : ParsedLog) : LogStorage :=
  match addLog st d with
  | some (_, s') => s'
  | none => st

/-- A sequence of attempted `add_log` calls. -/
def addBatch (st : LogStorage) (ds : List ParsedLog) : LogStorage :=
  ds.foldl addStep st

/-- Validation success of the pydantic construction performed by `add_log`:
a parsed record is well-formed when every field carries the type its
`LogRecord` declaration expects.  Success does not depend on the id. -/
def wellFormed (d : ParsedLog) : Bool := (mkRecord 0 d).isSome

/-- Descending-timestamp comparison used by `get_logs`
(`sorted(..., key=lambda x: x.timestamp, reverse=True)`). -/
def tsDesc (a b : LogRecordM) : Prop := b.timestamp ≤ a.timestamp

instance : DecidableRel tsDesc :=
  fun a b => inferInstanceAs (Decidable (b.timestamp ≤ a.timestamp))

instance : IsTotal LogRecordM tsDesc := ⟨fun a b => le_total b.timestamp a.timestamp⟩

instance : IsTrans LogRecordM tsDesc := ⟨fun _ _ _ h h' => le_trans h' h⟩

/-- Method `get_logs` (lines 70-75).  `if function_name:` is Python truthiness, so
an empty-string filter behaves like no filter; `sorted` builds a new list,
ordered by `timestamp` descending. -/
def getLogs (st : LogStorage) (limit : Nat) (function_name : Option String) :
    List LogRecordM :=
  let filtered :=
    match function_name with
    | some f => if f ≠ "" then bucketGet st.logs_by_function f else st.logs
    | none => st.logs
  (List.insertionSort tsDesc filtered).take limit

/-- Method `get_log_by_id` (lines 77-81): linear scan returning the first record
with the requested id, else `None`. -/
def getLogById (st : LogStorage) (log_id : Nat) : Option LogRecordM :=
  st.logs.find? (fun l => l.id = log_id)

/-- Method `get_logs` as a state transformer: the method body never assigns to
`self.logs` or `self.logs_by_function`, so the store component is returned
untouched. -/
def getLogsST (st : LogStorage) (limit : Nat) (function_name : Option String) :
    List LogRecordM × LogStorage :=
  (getLogs st limit function_name, st)

/-- Method `get_log_by_id` as a state transformer. -/
def getLogByIdST (st : LogStorage) (log_id : Nat) :
    Option LogRecordM × LogStorage :=
  (getLogById st log_id, st)

/-- Endpoint `GET /api/logs/{log_id}` (`get_log_detail_api`, lines 414-419):
a missing id is surfaced as `HTTPException(404)`. -/
def getLogDetailApi (st : LogStorage) (log_id : Nat) : Except Nat LogRecordM :=
  match getLogById st log_id with
  | some l => .ok l
  | none => .error 404

/-! ### Concrete inputs for the closed evaluations below -/

/-- Concrete model of the external collaborators.  Its `jsonLoads` agrees
with Python's `json.loads` on every string it is applied to below: the one
well-formed JSON object maps to its parsed form, anything else (only
non-JSON strings below) to a decode failure. -/
def ctxC : Ctx where
  jsonLoads := fun s =>
    if s = "\x7b\"level\": \"WARN\"\x7d" then some [("level", .str "WARN")]
    else none
  isoOfNano := fun _ => "2024-01-01T00:00:00"
  nowIso := "2024-01-01T00:00:00"

/-- A decoded record whose attributes carry `otel.log_data` with a
structured level `"WARN"` while the wire severity text is `"ERROR"`. -/
def recBothLevels : DecodedRecord where
  time_unix_nano := 1
  severity_text := "ERROR"
  severity_number := 17
  body := some (.str "boom")
  log_attributes := [("otel.log_data", .str "\x7b\"level\": \"WARN\"\x7d")]
  scope_name := "scope"
  scope_attributes := []
  resource_attributes := []
  trace_id := none
  span_id := none

/-- A decoded record whose body is the legacy pipe-delimited format (five
segments) and which carries no structured data. -/
def recPipeBody : DecodedRecord where
  time_unix_nano := 1
  severity_text := ""
  severity_number := 0
  body := some (.str "x|WARN|doThing|12.5ms|hello")
  log_attributes := []
  scope_name := "scope"
  scope_attributes := []
  resource_attributes := []
  trace_id := none
  span_id := none

/-- A decoded record with no structured data, but with a scope name and a
`service.name` resource attribute available as potential fallbacks. -/
def recScoped : DecodedRecord where
  time_unix_nano := 1
  severity_text := "INFO"
  severity_number := 9
  body := some (.str "hi")
  log_attributes := []
  scope_name := "myscope"
  scope_attributes := []
  resource_attributes := [("service.name", .str "svc")]
  trace_id := none
  span_id := none

/-- A decoded record whose `otel.log_data` attribute is a string that is
not valid JSON. -/
def recBadJson : DecodedRecord where
  time_unix_nano := 1
  severity_text := "INFO"
  severity_number := 9
  body := some (.str "hi")
  log_attributes := [("otel.log_data", .str "not json")]
  scope_name := "scope"
  scope_attributes := []
  resource_attributes := []
  trace_id := none
  span_id := none

/-- A well-formed parsed record, for concrete store evaluations. -/
def pl1 : ParsedLog where
  timestamp := "2024-01-01T00:00:01"
  level := .str "INFO"
  function_name := .str "f"
  module' := .str "m"
  duration_ms := .float 0
  status := .str "success"
  message := .str "hello"
  args := none
  kwargs := none
  result := none
  error := none
  error_type := none
  severity_number := 9
  severity_text := "INFO"
  resource_attributes := []
  scope_attributes := []
  log_attributes := []
  trace_id := none
  span_id := none

/-- A concrete stored record (the result of adding `pl1` under id 0). -/
def rec0 : LogRecordM where
  id := 0
  timestamp := "2024-01-01T00:00:01"
  level := "INFO"
  function_name := "f"
  module' := "m"
  duration_ms := 0
  status := "success"
  message := "hello"
  args := none
  kwargs := none
  result := none
  error := none
  error_type := none
  raw_data := pl1

/-- A store already holding exactly 1000 resident records, used to exercise
the eviction branch concretely. -/
def stFull : LogStorage :=
  ⟨List.replicate 1000 rec0, [("f", List.replicate 1000 rec0)], 1⟩

/-- Concrete model of `gzip.decompress`: agrees with the real library on
every input whose first two bytes are not the gzip magic `0x1f 0x8b`, where
`gzip.decompress` raises `BadGzipFile`. -/
def gzC : List Nat → Option (List Nat) := fun b =>
  if b.take 2 = [31, 139] then some [] else none

/-- Concrete model of `ParseFromString`; never consulted on the failing
gzip path exercised below. -/
def parsePBC : List Nat → Option Envelope := fun _ => none

/-- An ingest request whose header claims gzip while the body lacks the
gzip magic bytes. -/
def reqBadGzip : IngestRequest := ⟨"application/x-protobuf", "gzip", [0, 1, 2]⟩

/-! ### Structural lemmas about the function-name index -/

theorem bucketGet_append_self (d : FnIndex) (f : String) (r : LogRecordM) :
    bucketGet (bucketAppend d f r) f = bucketGet d f ++ [r] := by
  induction d with
  | nil => simp [bucketAppend, bucketGet]
  | cons kv t ih =>
    obtain ⟨g, l⟩ := kv
    by_cases h : g = f
    · simp [bucketAppend, h, bucketGet, List.lookup]
    · simp only [bucketAppend, if_neg h, bucketGet, List.lookup,
        beq_false_of_ne (Ne.symm h)]
      simpa only [bucketGet] using ih

theorem bucketGet_append_ne (d : FnIndex) (f g : String) (r : LogRecordM)
    (hne : g ≠ f) : bucketGet (bucketAppend d f r) g = bucketGet d g := by
  induction d with
  | nil =>
    simp [bucketAppend, bucketGet, List.lookup, beq_false_of_ne hne]
  | cons kv t ih =>
    obtain ⟨k, l⟩ := kv
    by_cases h : k = f
    · simp [bucketAppend, h, bucketGet, List.lookup, beq_false_of_ne hne]
    · simp only [bucketAppend, if_neg h, bucketGet, List.lookup]
      by_cases h2 : k = g
      · simp [h2]
      · simp only [beq_false_of_ne (Ne.symm h2)]
        simpa only [bucketGet] using ih

theorem bucketGet_erase_self (d : FnIndex) (f : String) (r : LogRecordM) :
    bucketGet (bucketErase d f r) f = (bucketGet d f).erase r := by
  induction d with
  | nil => simp [bucketErase, bucketGet]
  | cons kv t ih =>
    obtain ⟨g, l⟩ := kv
    by_cases h : g = f
    · simp [bucketErase, h, bucketGet, List.lookup]
    · simp only [bucketErase, if_neg h, bucketGet, List.lookup,
        beq_false_of_ne (Ne.symm h)]
      simpa only [bucketGet] using ih

theorem bucketGet_erase_ne (d : FnIndex) (f g : String) (r : LogRecordM)
    (hne : g ≠ f) : bucketGet (bucketErase d f r) g = bucketGet d g := by
  induction d with
  | nil => simp [bucketErase, bucketGet]
  | cons kv t ih =>
    obtain ⟨k, l⟩ := kv
    by_cases h : k = f
    · simp [bucketErase, h, bucketGet, List.lookup, beq_false_of_ne hne]
    · simp only [bucketErase, if_neg h, bucketGet, List.lookup]
      by_cases h2 : k = g
      · simp [h2]
      · simp only [beq_false_of_ne (Ne.symm h2)]
        simpa only [bucketGet] using ih

theorem count_bucketAppend (d : FnIndex) (f f1 : String) (r x : LogRecordM) :
    (bucketGet (bucketAppend d f1 r) f).count x
      = (bucketGet d f).count x + (if f = f1 ∧ x = r then 1 else 0) := by
  by_cases h : f = f1
  · subst h
    rw [bucketGet_append_self]
    by_cases hx : x = r
    · subst hx; simp [List.count_append]
    · simp [List.count_append, hx, List.count_singleton']
  · rw [bucketGet_append_ne d f1 f r h]
    simp [h]

theorem count_bucketErase (d : FnIndex) (f f0 : String) (r0 x : LogRecordM) :
    (bucketGet (bucketErase d f0 r0) f).count x
      = (bucketGet d f).count x - (if f = f0 ∧ x = r0 then 1 else 0) := by
  by_cases h : f = f0
  · subst h
    rw [bucketGet_erase_self]
    by_cases hx : x = r0
    · subst hx; simp [List.count_erase_self]
    · simp [hx, List.count_erase_of_ne hx]
  · rw [bucketGet_erase_ne d f0 f r0 h]
    simp [h]

/-! ### The store invariant -/

/-- Invariant of `LogStorage` maintained by `add_log`: at most 1000 resident
records, every resident id was issued by the counter, ids are pairwise
distinct, and every record has exactly one index reference, in the bucket
of its own function name. -/
structure StInv (st : LogStorage) : Prop where
  len_le : st.logs.length ≤ 1000
  ids_lt : ∀ r ∈ st.logs, r.id < st.next_id
  ids_nodup : (st.logs.map LogRecordM.id).Nodup
  counts : ∀ f x, (bucketGet st.logs_by_function f).count x
      = if x ∈ st.logs ∧ f = x.function_name then 1 else 0

theorem stInv_init : StInv initStorage :=
  ⟨by simp [initStorage], by simp [initStorage], by simp [initStorage],
   fun f x => by simp [initStorage, bucketGet]⟩

theorem StInv.logs_nodup {st : LogStorage} (inv : StInv st) : st.logs.Nodup :=
  inv.ids_nodup.of_map

theorem StInv.mem_bucket_iff {st : LogStorage} (inv : StInv st) (f : String)
    (x : LogRecordM) :
    x ∈ bucketGet st.logs_by_function f ↔ x ∈ st.logs ∧ f = x.function_name := by
  have h := inv.counts f x
  by_cases hc : x ∈ st.logs ∧ f = x.function_name
  · rw [if_pos hc] at h
    exact ⟨fun _ => hc, fun _ => List.count_pos_iff.mp (by omega)⟩
  · rw [if_neg hc] at h
    exact ⟨fun hm => absurd (List.count_pos_iff.mpr hm) (by omega),
           fun hm => absurd hm hc⟩

theorem stInv_addRecord {st : LogStorage} {rec : LogRecordM} (inv : StInv st)
    (hid : rec.id = st.next_id) : StInv (addRecord st rec) := by
  obtain ⟨logs, byf, nid⟩ := st
  have hid' : rec.id = nid := hid
  have hfresh : rec ∉ logs := fun h => absurd hid (Nat.ne_of_lt (inv.ids_lt rec h))
  have hlen0 : logs.length ≤ 1000 := inv.len_le
  have hlt : ∀ x ∈ logs, x.id < nid := inv.ids_lt
  have hnd : (logs.map LogRecordM.id).Nodup := inv.ids_nodup
  have hcts : ∀ f x, (bucketGet byf f).count x
      = if x ∈ logs ∧ f = x.function_name then 1 else 0 := inv.counts
  rw [addRecord]
  by_cases hlen : 1000 < (logs ++ [rec]).length
  · rw [if_pos hlen]
    rcases logs with _ | ⟨r0, rest⟩
    · simp at hlen
    have hr0rec : r0 ≠ rec := fun h => hfresh (h ▸ List.mem_cons_self r0 rest)
    have hr0rest : r0 ∉ rest := (List.nodup_cons.mp inv.logs_nodup).1
    show StInv ⟨rest ++ [rec],
      bucketErase (bucketAppend byf rec.function_name rec) r0.function_name r0,
      nid + 1⟩
    refine ⟨?_, ?_, ?_, ?_⟩
    · show (rest ++ [rec]).length ≤ 1000
      simp at hlen0 ⊢
      omega
    · intro x hx
      show x.id < nid + 1
      rcases List.mem_append.mp hx with hx | hx
      · exact Nat.lt_succ_of_lt (hlt x (List.mem_cons_of_mem _ hx))
      · rw [List.mem_singleton.mp hx, hid']
        omega
    · show ((rest ++ [rec]).map LogRecordM.id).Nodup
      simp only [List.map_cons, List.nodup_cons] at hnd
      simp only [List.map_append, List.map_cons, List.map_nil, List.nodup_append,
        List.nodup_cons, List.nodup_nil, List.disjoint_singleton]
      refine ⟨hnd.2, by simp, ?_⟩
      intro hi
      obtain ⟨x, hx, hxi⟩ := List.mem_map.mp hi
      have := hlt x (List.mem_cons_of_mem _ hx)
      omega
    · intro f x
      show (bucketGet (bucketErase (bucketAppend byf rec.function_name rec)
          r0.function_name r0) f).count x
        = if x ∈ rest ++ [rec] ∧ f = x.function_name then 1 else 0
      rw [count_bucketErase, count_bucketAppend, hcts f x]
      simp only [List.mem_cons, List.mem_append, List.not_mem_nil, or_false]
      by_cases h1 : x = rec
      · subst h1
        have hxr : x ≠ r0 := Ne.symm hr0rec
        have hxrest : x ∉ rest := fun h => hfresh (List.mem_cons_of_mem _ h)
        have hA : ¬((x = r0 ∨ x ∈ rest) ∧ f = x.function_name) := by
          rintro ⟨hm | hm, _⟩
          · exact hxr hm
          · exact hxrest hm
        have hB : ¬(f = r0.function_name ∧ x = r0) := fun h => hxr h.2
        rw [if_neg hA, if_neg hB]
        by_cases h2 : f = x.function_name
        · rw [if_pos (show f = x.function_name ∧ x = x from ⟨h2, rfl⟩),
            if_pos (show (x ∈ rest ∨ x = x) ∧ f = x.function_name from ⟨Or.inr rfl, h2⟩)]
        · have hC : ¬(f = x.function_name ∧ x = x) := fun h => h2 h.1
          have hD : ¬((x ∈ rest ∨ x = x) ∧ f = x.function_name) := fun h => h2 h.2
          rw [if_neg hC, if_neg hD]
      · by_cases h2 : x = r0
        · subst h2
          have hA : ¬(f = rec.function_name ∧ x = rec) := fun h => h1 h.2
          rw [if_neg hA]
          by_cases h3 : f = x.function_name
          · rw [if_pos (show (x = x ∨ x ∈ rest) ∧ f = x.function_name from ⟨Or.inl rfl, h3⟩),
              if_pos (show f = x.function_name ∧ x = x from ⟨h3, rfl⟩)]
            have : ¬((x ∈ rest ∨ x = rec) ∧ f = x.function_name) := by
              rintro ⟨hm | hm, _⟩
              · exact hr0rest hm
              · exact h1 hm
            rw [if_neg this]
          · have hB : ¬(f = x.function_name ∧ x = x) := fun h => h3 h.1
            have hm1 : ¬((x = x ∨ x ∈ rest) ∧ f = x.function_name) := fun h => h3 h.2
            have hm2 : ¬((x ∈ rest ∨ x = rec) ∧ f = x.function_name) := fun h => h3 h.2
            rw [if_neg hB, if_neg hm1, if_neg hm2]
        · have hA : ¬(f = rec.function_name ∧ x = rec) := fun h => h1 h.2
          have hB : ¬(f = r0.function_name ∧ x = r0) := fun h => h2 h.2
          rw [if_neg hA, if_neg hB]
          have hiff : ((x = r0 ∨ x ∈ rest) ∧ f = x.function_name)
              ↔ ((x ∈ rest ∨ x = rec) ∧ f = x.function_name) := by
            constructor
            · rintro ⟨hm | hm, hf⟩
              · exact absurd hm h2
              · exact ⟨Or.inl hm, hf⟩
            · rintro ⟨hm | hm, hf⟩
              · exact ⟨Or.inr hm, hf⟩
              · exact absurd hm h1
          by_cases h3 : (x = r0 ∨ x ∈ rest) ∧ f = x.function_name
          · rw [if_pos h3, if_pos (hiff.mp h3)]
          · rw [if_neg h3, if_neg (fun h => h3 (hiff.mpr h))]
  · rw [if_neg hlen]
    show StInv ⟨logs ++ [rec], bucketAppend byf rec.function_name rec, nid + 1⟩
    refine ⟨?_, ?_, ?_, ?_⟩
    · show (logs ++ [rec]).length ≤ 1000
      simp at hlen ⊢
      omega
    · intro x hx
      show x.id < nid + 1
      rcases List.mem_append.mp hx with hx | hx
      · exact Nat.lt_succ_of_lt (hlt x hx)
      · rw [List.mem_singleton.mp hx, hid']
        omega
    · show ((logs ++ [rec]).map LogRecordM.id).Nodup
      simp only [List.map_append, List.map_cons, List.map_nil, List.nodup_append,
        List.nodup_cons, List.nodup_nil, List.disjoint_singleton]
      refine ⟨hnd, by simp, ?_⟩
      intro hi
      obtain ⟨x, hx, hxi⟩ := List.mem_map.mp hi
      have := hlt x hx
      omega
    · intro f x
      show (bucketGet (bucketAppend byf rec.function_name rec) f).count x
        = if x ∈ logs ++ [rec] ∧ f = x.function_name then 1 else 0
      rw [count_bucketAppend, hcts f x]
      simp only [List.mem_append, List.mem_cons, List.not_mem_nil, or_false]
      by_cases h1 : x = rec
      · subst h1
        have hA : ¬(x ∈ logs ∧ f = x.function_name) := fun h => hfresh h.1
        rw [if_neg hA]
        by_cases h2 : f = x.function_name
        · rw [if_pos (show f = x.function_name ∧ x = x from ⟨h2, rfl⟩),
            if_pos (show (x ∈ logs ∨ x = x) ∧ f = x.function_name from ⟨Or.inr rfl, h2⟩)]
        · have hB : ¬(f = x.function_name ∧ x = x) := fun h => h2 h.1
          have hC : ¬((x ∈ logs ∨ x = x) ∧ f = x.function_name) := fun h => h2 h.2
          rw [if_neg hB, if_neg hC]
      · have hA : ¬(f = rec.function_name ∧ x = rec) := fun h => h1 h.2
        rw [if_neg hA]
        have hiff : (x ∈ logs ∧ f = x.function_name)
            ↔ ((x ∈ logs ∨ x = rec) ∧ f = x.function_name) := by
          constructor
          · rintro ⟨hm, hf⟩
            exact ⟨Or.inl hm, hf⟩
          · rintro ⟨hm | hm, hf⟩
            · exact ⟨hm, hf⟩
            · exact absurd hm h1
        by_cases h3 : x ∈ logs ∧ f = x.function_name
        · rw [if_pos h3, if_pos (hiff.mp h3)]
        · rw [if_neg h3, if_neg (fun h => h3 (hiff.mpr h))]

/-! ### Lemmas about `add_log` and batches of adds -/

theorem mkRecord_isSome_congr (i j : Nat) (d : ParsedLog) :
    (mkRecord i d).isSome = (mkRecord j d).isSome := by
  rw [mkRecord, mkRecord]
  cases d.level.pyStr <;> cases d.function_name.pyStr <;> cases d.module'.pyStr <;>
    cases d.duration_ms.pyFloat <;> cases d.status.pyStr <;> cases d.message.pyStr <;>
    cases optPyStr d.args <;> cases optPyStr d.result <;> cases optPyStr d.error <;>
    cases optPyStr d.error_type <;> rfl

theorem mkRecord_id {i : Nat} {d : ParsedLog} {rec : LogRecordM}
    (h : mkRecord i d = some rec) : rec.id = i := by
  rw [mkRecord] at h
  simp only [Option.bind_eq_bind, Option.bind_eq_some, Option.some.injEq] at h
  obtain ⟨a1, -, a2, -, a3, -, a4, -, a5, -, a6, -, a7, -, a8, -, a9, -, a10, -, h⟩ := h
  subst h
  rfl

theorem addLog_some_of_wellFormed (st : LogStorage) {d : ParsedLog}
    (h : wellFormed d = true) :
    ∃ rec, mkRecord st.next_id d = some rec ∧ rec.id = st.next_id
      ∧ addLog st d = some (st.next_id, addRecord st rec) := by
  have h2 : (mkRecord st.next_id d).isSome = true := by
    rw [mkRecord_isSome_congr st.next_id 0]
    exact h
  obtain ⟨rec, hrec⟩ := Option.isSome_iff_exists.mp h2
  exact ⟨rec, hrec, mkRecord_id hrec, by rw [addLog, hrec]; rfl⟩

theorem addLog_inv {st : LogStorage} {d : ParsedLog} {i : Nat} {s' : LogStorage}
    (h : addLog st d = some (i, s')) :
    i = st.next_id ∧ ∃ rec, mkRecord st.next_id d = some rec ∧ s' = addRecord st rec := by
  rw [addLog] at h
  cases hm : mkRecord st.next_id d <;> rw [hm] at h
  · simp at h
  · simp only [Option.map_some', Option.some.injEq, Prod.mk.injEq] at h
    exact ⟨h.1.symm, _, rfl, h.2.symm⟩

theorem addRecord_next_id (st : LogStorage) (rec : LogRecordM) :
    (addRecord st rec).next_id = st.next_id + 1 := by
  rw [addRecord]
  split <;> rfl

theorem addRecord_length {st : LogStorage} (rec : LogRecordM)
    (h : st.logs.length ≤ 1000) :
    (addRecord st rec).logs.length = min (st.logs.length + 1) 1000 := by
  rw [addRecord]
  by_cases hlen : 1000 < (st.logs ++ [rec]).length
  · rw [if_pos hlen]
    simp only [List.length_append, List.length_singleton] at hlen
    show (st.logs ++ [rec]).tail.length = _
    rw [List.length_tail]
    simp only [List.length_append, List.length_singleton]
    omega
  · rw [if_neg hlen]
    simp only [List.length_append, List.length_singleton] at hlen
    show (st.logs ++ [rec]).length = _
    simp only [List.length_append, List.length_singleton]
    omega

theorem addRecord_logs_append {st : LogStorage} (rec : LogRecordM)
    (h : st.logs.length < 1000) :
    (addRecord st rec).logs = st.logs ++ [rec] := by
  rw [addRecord, if_neg (by simp only [List.length_append, List.length_singleton]; omega)]

theorem addRecord_logs_evict {st : LogStorage} (rec : LogRecordM)
    (h : st.logs.length = 1000) :
    (addRecord st rec).logs = st.logs.tail ++ [rec] := by
  rw [addRecord, if_pos (by simp only [List.length_append, List.length_singleton]; omega)]
  obtain ⟨a, t, hL⟩ : ∃ a t, st.logs = a :: t := by
    cases hl : st.logs with
    | nil => rw [hl] at h; simp at h
    | cons a t => exact ⟨a, t, rfl⟩
  show (st.logs ++ [rec]).tail = st.logs.tail ++ [rec]
  rw [hL]
  rfl

theorem addRecord_mem {st : LogStorage} {rec x : LogRecordM}
    (h : x ∈ (addRecord st rec).logs) : x ∈ st.logs ∨ x = rec := by
  rw [addRecord] at h
  split at h
  · have h2 : x ∈ st.logs ++ [rec] := List.mem_of_mem_tail h
    rcases List.mem_append.mp h2 with h3 | h3
    · exact Or.inl h3
    · exact Or.inr (List.mem_singleton.mp h3)
  · rcases List.mem_append.mp h with h3 | h3
    · exact Or.inl h3
    · exact Or.inr (List.mem_singleton.mp h3)

theorem stInv_addStep {st : LogStorage} (inv : StInv st) (d : ParsedLog) :
    StInv (addStep st d) := by
  rw [addStep]
  cases h : addLog st d with
  | none => exact inv
  | some p =>
    obtain ⟨i, s'⟩ := p
    obtain ⟨-, rec, hrec, hs⟩ := addLog_inv h
    rw [hs]
    exact stInv_addRecord inv (mkRecord_id hrec)

theorem stInv_addBatch {st : LogStorage} (inv : StInv st) (ds : List ParsedLog) :
    StInv (addBatch st ds) := by
  induction ds generalizing st with
  | nil => exact inv
  | cons d t ih => exact ih (stInv_addStep inv d)

theorem addStep_next_id_le (st : LogStorage) (d : ParsedLog) :
    st.next_id ≤ (addStep st d).next_id := by
  rw [addStep]
  cases h : addLog st d with
  | none => exact Nat.le_refl _
  | some p =>
    obtain ⟨i, s'⟩ := p
    obtain ⟨-, rec, -, hs⟩ := addLog_inv h
    rw [hs, addRecord_next_id]
    omega

theorem addBatch_next_id_le (st : LogStorage) (ds : List ParsedLog) :
    st.next_id ≤ (addBatch st ds).next_id := by
  induction ds generalizing st with
  | nil => exact Nat.le_refl _
  | cons d t ih => exact Nat.le_trans (addStep_next_id_le st d) (ih (addStep st d))

theorem addStep_mem {st : LogStorage} {d : ParsedLog} {x : LogRecordM}
    (h : x ∈ (addStep st d).logs) : x ∈ st.logs ∨ st.next_id ≤ x.id := by
  rw [addStep] at h
  revert h
  cases hl : addLog st d with
  | none => exact fun h => Or.inl h
  | some p =>
    obtain ⟨i, s'⟩ := p
    obtain ⟨-, rec, hrec, hs⟩ := addLog_inv hl
    intro h
    rw [hs] at h
    rcases addRecord_mem h with h2 | h2
    · exact Or.inl h2
    · exact Or.inr (by rw [h2, mkRecord_id hrec])

theorem addBatch_mem {st : LogStorage} {ds : List ParsedLog} {x : LogRecordM}
    (h : x ∈ (addBatch st ds).logs) : x ∈ st.logs ∨ st.next_id ≤ x.id := by
  induction ds generalizing st with
  | nil => exact Or.inl h
  | cons d t ih =>
    rcases ih (h : x ∈ (addBatch (addStep st d) t).logs) with h2 | h2
    · rcases addStep_mem h2 with h3 | h3
      · exact Or.inl h3
      · exact Or.inr h3
    · exact Or.inr (Nat.le_trans (addStep_next_id_le st d) h2)

theorem addBatch_length {st : LogStorage} {ds : List ParsedLog}
    (hlen : st.logs.length ≤ 1000) (hwf : ∀ d ∈ ds, wellFormed d = true) :
    (addBatch st ds).logs.length = min (st.logs.length + ds.length) 1000 := by
  induction ds generalizing st with
  | nil =>
    show st.logs.length = _
    simp only [List.length_nil]
    omega
  | cons d t ih =>
    obtain ⟨rec, hrec, hrid, hadd⟩ := addLog_some_of_wellFormed st (hwf d (by simp))
    have hstep : addStep st d = addRecord st rec := by rw [addStep, hadd]
    have hlen1 : (addRecord st rec).logs.length = min (st.logs.length + 1) 1000 :=
      addRecord_length rec hlen
    have hbatch : addBatch st (d :: t) = addBatch (addStep st d) t := rfl
    rw [hbatch, hstep, ih (by omega) (fun d' hd' => hwf d' (by simp [hd'])), hlen1]
    simp only [List.length_cons]
    omega

/-! ### Lemmas about the query operations -/

theorem bucket_perm_filter {st : LogStorage} (inv : StInv st) (n : String) :
    (bucketGet st.logs_by_function n).Perm
      (st.logs.filter (fun r => r.function_name == n)) := by
  rw [List.perm_iff_count]
  intro x
  rw [inv.counts n x]
  by_cases hx : x.function_name = n
  · rw [List.count_filter (by simp [hx])]
    by_cases hm : x ∈ st.logs
    · rw [if_pos ⟨hm, hx.symm⟩, List.count_eq_one_of_mem inv.logs_nodup hm]
    · rw [if_neg (fun h => hm h.1), List.count_eq_zero_of_not_mem hm]
  · rw [if_neg (fun h => hx h.2.symm)]
    have hnm : x ∉ st.logs.filter (fun r => r.function_name == n) := by
      intro hmem
      have := List.of_mem_filter hmem
      simp only [beq_iff_eq] at this
      exact hx this
    rw [List.count_eq_zero_of_not_mem hnm]

theorem getLogs_eq_some {st : LogStorage} (lim : Nat) {n : String} (hn : n ≠ "") :
    getLogs st lim (some n)
      = (List.insertionSort tsDesc (bucketGet st.logs_by_function n)).take lim := by
  simp only [getLogs]
  rw [if_pos hn]

theorem getLogs_eq_none (st : LogStorage) (lim : Nat) :
    getLogs st lim none = (List.insertionSort tsDesc st.logs).take lim := rfl

theorem getLogs_eq_empty_str (st : LogStorage) (lim : Nat) :
    getLogs st lim (some "") = (List.insertionSort tsDesc st.logs).take lim := by
  simp only [getLogs]
  rw [if_neg (by simp)]

theorem mapM_isSome {α β : Type} (f : α → Option β) (xs : List α)
    (h : ∀ x ∈ xs, (f x).isSome = true) :
    ∃ ys, xs.mapM f = some ys ∧ ys.length = xs.length := by
  induction xs with
  | nil => exact ⟨[], rfl, rfl⟩
  | cons x t ih =>
    obtain ⟨y, hy⟩ := Option.isSome_iff_exists.mp (h x (by simp))
    obtain ⟨ys, hys, hlen⟩ := ih (fun z hz => h z (by simp [hz]))
    refine ⟨y :: ys, ?_, by simp [hlen]⟩
    rw [List.mapM_cons, hy, hys]
    rfl

/-! ### Claims about the store -/

/-- C5: with capacity 1000, a batch of N well-formed records increases the
resident count by `min(N, 1000 - current_count)`; every single successful
add leaves at most 1000 residents, appends when under capacity, and at
capacity evicts exactly one entry, the oldest-inserted (head) one. -/
theorem c5_capacity_fifo (st : LogStorage) (ds : List ParsedLog)
    (hlen : st.logs.length ≤ 1000) (hwf : ∀ d ∈ ds, wellFormed d = true) :
    (addBatch st ds).logs.length
        = st.logs.length + min ds.length (1000 - st.logs.length)
    ∧ (∀ d i s', addLog st d = some (i, s') →
        s'.logs.length ≤ 1000
        ∧ (st.logs.length < 1000 → ∃ r, s'.logs = st.logs ++ [r])
        ∧ (st.logs.length = 1000 → ∃ r, s'.logs = st.logs.tail ++ [r])) := by
  refine ⟨?_, ?_⟩
  · rw [addBatch_length hlen hwf]
    omega
  · intro d i s' h
    obtain ⟨-, rec, hrec, hs⟩ := addLog_inv h
    subst hs
    refine ⟨?_, ?_, ?_⟩
    · rw [addRecord_length rec hlen]
      omega
    · intro hlt
      exact ⟨rec, addRecord_logs_append rec hlt⟩
    · intro heq
      exact ⟨rec, addRecord_logs_evict rec heq⟩

set_option maxRecDepth 1000000 in
/-- Witness for `c5_capacity_fifo`: a store already holding 1000 records
gains no resident from one more add (min(1, 0) = 0). -/
theorem c5_capacity_fifo_witness :
    (addBatch stFull [pl1]).logs.length
      = stFull.logs.length + min [pl1].length (1000 - stFull.logs.length) :=
  (c5_capacity_fifo stFull [pl1] (by decide) (by decide)).1

/-- C6: after any sequence of add operations starting from the empty store,
an id appears in the bucket of `f` exactly when a resident record with that
id and function name `f` exists (so no evicted entry's id remains in any
bucket), and every resident record has exactly one index reference, in
exactly the bucket of its own function name. -/
theorem c6_index_in_sync (ds : List ParsedLog) :
    (∀ f i,
      (∃ x ∈ bucketGet (addBatch initStorage ds).logs_by_function f, x.id = i)
        ↔ ∃ r ∈ (addBatch initStorage ds).logs, r.id = i ∧ r.function_name = f)
    ∧ (∀ f x, (bucketGet (addBatch initStorage ds).logs_by_function f).count x
        = if x ∈ (addBatch initStorage ds).logs ∧ f = x.function_name then 1
          else 0) := by
  have inv := stInv_addBatch stInv_init ds
  refine ⟨?_, inv.counts⟩
  intro f i
  constructor
  · rintro ⟨x, hx, hxi⟩
    have h := (inv.mem_bucket_iff f x).mp hx
    exact ⟨x, h.1, hxi, h.2.symm⟩
  · rintro ⟨r, hr, hri, hrf⟩
    exact ⟨r, (inv.mem_bucket_iff f r).mpr ⟨hr, hrf.symm⟩, hri⟩

/-- C7: on any store reached by adds from empty, an id at least the counter
(never returned by any add) yields 404; the lookup returns a record exactly
when that record is resident under the requested id; and any id carried by
no resident record — in particular an evicted one — yields 404. -/
theorem c7_lookup_not_found (ds : List ParsedLog) (i : Nat) :
    ((addBatch initStorage ds).next_id ≤ i →
        getLogDetailApi (addBatch initStorage ds) i = .error 404)
    ∧ (∀ r, getLogDetailApi (addBatch initStorage ds) i = .ok r
        ↔ r ∈ (addBatch initStorage ds).logs ∧ r.id = i)
    ∧ ((∀ r ∈ (addBatch initStorage ds).logs, r.id ≠ i) →
        getLogDetailApi (addBatch initStorage ds) i = .error 404) := by
  have inv := stInv_addBatch stInv_init ds
  have hfind : ∀ r, getLogById (addBatch initStorage ds) i = some r
      ↔ r ∈ (addBatch initStorage ds).logs ∧ r.id = i := by
    intro r
    constructor
    · intro h
      have hmem := List.mem_of_find?_eq_some h
      have hp := List.find?_some h
      simp only [decide_eq_true_eq] at hp
      exact ⟨hmem, hp⟩
    · rintro ⟨hmem, hid⟩
      have hex : ((addBatch initStorage ds).logs.find?
          (fun l => l.id = i)).isSome = true :=
        List.find?_isSome.mpr ⟨r, hmem, by simp [hid]⟩
      obtain ⟨x, hx⟩ := Option.isSome_iff_exists.mp hex
      have hxmem := List.mem_of_find?_eq_some hx
      have hxp := List.find?_some hx
      simp only [decide_eq_true_eq] at hxp
      have hxr : x = r :=
        List.inj_on_of_nodup_map inv.ids_nodup hxmem hmem (by rw [hxp, hid])
      rw [getLogById, hx, hxr]
  have hnone : ∀ (hno : ∀ r ∈ (addBatch initStorage ds).logs, r.id ≠ i),
      getLogDetailApi (addBatch initStorage ds) i = .error 404 := by
    intro hno
    have h0 : getLogById (addBatch initStorage ds) i = none := by
      apply List.find?_eq_none.mpr
      intro x hx
      simp only [decide_eq_true_eq]
      exact hno x hx
    rw [getLogDetailApi, h0]
  refine ⟨?_, ?_, hnone⟩
  · intro hi
    apply hnone
    intro r hr
    have := inv.ids_lt r hr
    omega
  · intro r
    rw [getLogDetailApi]
    cases h : getLogById (addBatch initStorage ds) i with
    | none =>
      simp only [reduceCtorEq, false_iff]
      intro hc
      exact absurd ((hfind r).mpr hc) (by rw [h]; simp)
    | some x =>
      have hx := (hfind x).mp h
      constructor
      · intro he
        have : x = r := by
          cases he
          rfl
        rw [← this]
        exact hx
      · intro hc
        have : x = r :=
          List.inj_on_of_nodup_map inv.ids_nodup hx.1 hc.1 (by rw [hx.2, hc.2])
        rw [this]

/-- Witness for `c7_lookup_not_found`: id 5 was never returned by any add
on a single-record store, and the lookup answers 404. -/
theorem c7_lookup_not_found_witness :
    getLogDetailApi (addBatch initStorage [pl1]) 5 = .error 404 :=
  (c7_lookup_not_found [pl1] 5).1 (by decide)

/-- C10: the read operations are pure: as state transformers they return
the store — primary sequence and every index bucket — exactly as it was;
`get_logs` sorts a fresh list instead of reordering the stored one. -/
theorem c10_reads_pure (st : LogStorage) (lim : Nat) (fn : Option String)
    (i : Nat) :
    (getLogsST st lim fn).2 = st ∧ (getLogByIdST st i).2 = st :=
  ⟨rfl, rfl⟩

/-- C8 counterexample: on a store holding one record named `"f"`, the query
with the (unknown) empty-string filter returns that record rather than the
empty sequence the claim requires: Python's `if function_name:` treats the
empty string as no filter at all. -/
theorem c8_counterexample :
    (getLogs (addBatch initStorage [pl1]) 100 (some "")).map
        LogRecordM.function_name = ["f"]
    ∧ ("" : String) ≠ "f" := by decide

/-- C8 (amended): for a non-empty filter the query returns exactly the
resident records with that function name, sorted by timestamp descending
and truncated to the first `limit`; with no filter it does the same over
all residents; an empty-string filter behaves exactly like no filter. -/
theorem c8_query_semantics (ds : List ParsedLog) (lim : Nat) (n : String) :
    (n ≠ "" → ∃ L : List LogRecordM,
        getLogs (addBatch initStorage ds) lim (some n) = L.take lim
        ∧ L.Perm ((addBatch initStorage ds).logs.filter
            (fun r => r.function_name == n))
        ∧ L.Sorted tsDesc)
    ∧ (∃ L : List LogRecordM,
        getLogs (addBatch initStorage ds) lim none = L.take lim
        ∧ L.Perm (addBatch initStorage ds).logs ∧ L.Sorted tsDesc)
    ∧ getLogs (addBatch initStorage ds) lim (some "")
        = getLogs (addBatch initStorage ds) lim none := by
  have inv := stInv_addBatch stInv_init ds
  refine ⟨?_, ?_, ?_⟩
  · intro hn
    refine ⟨List.insertionSort tsDesc
        (bucketGet (addBatch initStorage ds).logs_by_function n),
      getLogs_eq_some lim hn, ?_, List.sorted_insertionSort tsDesc _⟩
    exact (List.perm_insertionSort tsDesc _).trans (bucket_perm_filter inv n)
  · exact ⟨List.insertionSort tsDesc (addBatch initStorage ds).logs,
      getLogs_eq_none _ lim, List.perm_insertionSort tsDesc _,
      List.sorted_insertionSort tsDesc _⟩
  · rw [getLogs_eq_empty_str, getLogs_eq_none]

/-- Witness for `c8_query_semantics` with the non-empty filter `"f"`. -/
theorem c8_query_semantics_witness :
    ∃ L : List LogRecordM,
      getLogs (addBatch initStorage [pl1]) 100 (some "f") = L.take 100
      ∧ L.Perm ((addBatch initStorage [pl1]).logs.filter
          (fun r => r.function_name == "f"))
      ∧ L.Sorted tsDesc :=
  (c8_query_semantics [pl1] 100 "f").1 (by decide)

/-! ### Claims about the normalizer -/

theorem parseRecord_eq {ctx : Ctx} {r : DecodedRecord} {otel : PDict}
    (hO : otelLogData ctx r.log_attributes = some otel) :
    parseRecord ctx r = some {
      timestamp := if r.time_unix_nano ≠ 0 then ctx.isoOfNano r.time_unix_nano
                   else ctx.nowIso
      level := if r.severity_text ≠ "" then .str r.severity_text
               else dictGetD otel "level" (.str "INFO")
      function_name := dictGetD otel "function_name" (.str "unknown")
      module' := dictGetD otel "module" (.str "unknown")
      duration_ms := dictGetD otel "duration_ms" (.float 0)
      status := dictGetD otel "status" (.str "unknown")
      message := match r.body with | some v => v | none => .str ""
      args := dictGet otel "args"
      kwargs := dictGet otel "kwargs"
      result := dictGet otel "result"
      error := dictGet otel "error"
      error_type := dictGet otel "error_type"
      severity_number := r.severity_number
      severity_text := r.severity_text
      resource_attributes := r.resource_attributes
      scope_attributes := r.scope_attributes
      log_attributes := r.log_attributes
      trace_id := r.trace_id
      span_id := r.span_id } := by
  simp only [parseRecord]
  rw [hO]

/-- C1 counterexample: at `recBothLevels` the structured
`otel.log_data.level` is `"WARN"` and the wire `severity_text` is
`"ERROR"`, both present, and the decoded level is `"ERROR"`: severity text
wins, refuting the claimed precedence of `otel.log_data.level`. -/
theorem c1_counterexample :
    (parseRecord ctxC recBothLevels).map ParsedLog.level = some (.str "ERROR")
    ∧ dictGet ((ctxC.jsonLoads "\x7b\"level\": \"WARN\"\x7d").getD []) "level"
        = some (.str "WARN")
    ∧ PVal.str "ERROR" ≠ PVal.str "WARN" := by decide

/-- C1 (amended): the decoded level is the record's `severity_text` when
that is non-empty (severity text wins even over a present
`otel.log_data.level`); otherwise `otel.log_data`'s level when present;
otherwise `"INFO"`. -/
theorem c1_level_precedence (ctx : Ctx) (r : DecodedRecord) (otel : PDict)
    (hO : otelLogData ctx r.log_attributes = some otel) :
    (r.severity_text ≠ "" →
      (parseRecord ctx r).map ParsedLog.level = some (.str r.severity_text))
    ∧ (∀ v, r.severity_text = "" → dictGet otel "level" = some v →
      (parseRecord ctx r).map ParsedLog.level = some v)
    ∧ (r.severity_text = "" → dictGet otel "level" = none →
      (parseRecord ctx r).map ParsedLog.level = some (.str "INFO")) := by
  rw [parseRecord_eq hO]
  simp only [Option.map_some']
  refine ⟨fun h => ?_, fun v h hv => ?_, fun h hv => ?_⟩
  · simp [h]
  · rw [dictGet] at hv
    simp [h, dictGetD, hv]
  · rw [dictGet] at hv
    simp [h, dictGetD, hv]

/-- Witness for `c1_level_precedence`: a record with non-empty severity
text decodes to that severity text as its level. -/
theorem c1_level_precedence_witness :
    (parseRecord ctxC recScoped).map ParsedLog.level
      = some (.str recScoped.severity_text) :=
  (c1_level_precedence ctxC recScoped [] (by decide)).1 (by decide)

/-- C2 counterexample: the body with five pipe-separated segments is NOT
re-split: the record decodes with default level, function name and
duration, and the whole body as its message, refuting every override the
claim describes. -/
theorem c2_counterexample :
    (parseRecord ctxC recPipeBody).map ParsedLog.level = some (.str "INFO")
    ∧ (parseRecord ctxC recPipeBody).map ParsedLog.function_name
        = some (.str "unknown")
    ∧ (parseRecord ctxC recPipeBody).map ParsedLog.duration_ms
        = some (.float 0)
    ∧ (parseRecord ctxC recPipeBody).map ParsedLog.message
        = some (.str "x|WARN|doThing|12.5ms|hello")
    ∧ PVal.str "INFO" ≠ .str "WARN"
    ∧ PVal.str "unknown" ≠ .str "doThing"
    ∧ PVal.float 0 ≠ .float (25/2)
    ∧ PVal.str "x|WARN|doThing|12.5ms|hello" ≠ .str "hello" := by
  refine ⟨by decide, by decide, by decide, by decide, by decide, by decide,
    ?_, by decide⟩
  simp only [ne_eq, PVal.float.injEq]
  norm_num

/-- C2 (amended): no pipe-splitting legacy rule exists in the decoder: the
whole decoded body becomes `message` unchanged, and the decoded `level`,
`function_name` and `duration_ms` do not depend on the body at all. -/
theorem c2_no_pipe_split (ctx : Ctx) (r : DecodedRecord)
    (h : (parseRecord ctx r).isSome = true) :
    (parseRecord ctx r).map ParsedLog.message
        = some (match r.body with | some v => v | none => .str "")
    ∧ ∀ b', ((parseRecord ctx { r with body := b' }).map ParsedLog.level
          = (parseRecord ctx r).map ParsedLog.level
      ∧ (parseRecord ctx { r with body := b' }).map ParsedLog.function_name
          = (parseRecord ctx r).map ParsedLog.function_name
      ∧ (parseRecord ctx { r with body := b' }).map ParsedLog.duration_ms
          = (parseRecord ctx r).map ParsedLog.duration_ms
      ∧ (parseRecord ctx { r with body := b' }).map ParsedLog.message
          = some (match b' with | some v => v | none => .str "")) := by
  cases hO : otelLogData ctx r.log_attributes with
  | none =>
    rw [show parseRecord ctx r = none by simp only [parseRecord]; rw [hO]] at h
    simp at h
  | some otel =>
    have hO' : ∀ b', otelLogData ctx
        ({ r with body := b' } : DecodedRecord).log_attributes = some otel := fun _ => hO
    refine ⟨?_, fun b' => ⟨?_, ?_, ?_, ?_⟩⟩
    · rw [parseRecord_eq hO]
      rfl
    · rw [parseRecord_eq hO, parseRecord_eq (hO' b')]
      rfl
    · rw [parseRecord_eq hO, parseRecord_eq (hO' b')]
      rfl
    · rw [parseRecord_eq hO, parseRecord_eq (hO' b')]
      rfl
    · rw [parseRecord_eq (hO' b')]
      rfl

/-- Witness for `c2_no_pipe_split` at the five-segment pipe body. -/
theorem c2_no_pipe_split_witness :
    (parseRecord ctxC recPipeBody).map ParsedLog.message
      = some (match recPipeBody.body with | some v => v | none => .str "") :=
  (c2_no_pipe_split ctxC recPipeBody (by decide)).1

/-- C4 counterexample: at `recScoped` no structured data is present, a
scope name and a `service.name` resource attribute are both available, and
the decoded `function_name` and `module` are still `"unknown"`: neither
fallback claimed by the spec exists. -/
theorem c4_counterexample :
    (parseRecord ctxC recScoped).map ParsedLog.function_name
        = some (.str "unknown")
    ∧ (parseRecord ctxC recScoped).map ParsedLog.module' = some (.str "unknown")
    ∧ recScoped.scope_name = "myscope"
    ∧ dictGet recScoped.resource_attributes "service.name" = some (.str "svc")
    ∧ PVal.str "unknown" ≠ .str "myscope"
    ∧ PVal.str "unknown" ≠ .str "svc" := by decide

/-- C4 (amended): `function_name` is `otel.log_data.function_name` else
`"unknown"`, and `module` is `otel.log_data.module` else `"unknown"`;
neither consults the scope name or `resource_attributes["service.name"]`,
on which both are independent. -/
theorem c4_no_scope_fallback (ctx : Ctx) (r : DecodedRecord) (otel : PDict)
    (hO : otelLogData ctx r.log_attributes = some otel) :
    (parseRecord ctx r).map ParsedLog.function_name
        = some (dictGetD otel "function_name" (.str "unknown"))
    ∧ (parseRecord ctx r).map ParsedLog.module'
        = some (dictGetD otel "module" (.str "unknown"))
    ∧ ∀ sn ra,
      ((parseRecord ctx { r with scope_name := sn, resource_attributes := ra }).map
            ParsedLog.function_name
          = (parseRecord ctx r).map ParsedLog.function_name
      ∧ (parseRecord ctx { r with scope_name := sn, resource_attributes := ra }).map
            ParsedLog.module'
          = (parseRecord ctx r).map ParsedLog.module') := by
  have hO' : ∀ sn ra, otelLogData ctx
      ({ r with scope_name := sn, resource_attributes := ra } :
        DecodedRecord).log_attributes = some otel := fun _ _ => hO
  refine ⟨?_, ?_, fun sn ra => ⟨?_, ?_⟩⟩ <;>
    rw [parseRecord_eq hO] <;> try rw [parseRecord_eq (hO' sn ra)]
  · rfl
  · rfl
  · rfl
  · rfl

/-- Witness for `c4_no_scope_fallback` at a record without structured
data. -/
theorem c4_no_scope_fallback_witness :
    (parseRecord ctxC recScoped).map ParsedLog.function_name
      = some (dictGetD [] "function_name" (.str "unknown")) :=
  (c4_no_scope_fallback ctxC recScoped [] (by decide)).1

/-- C9: a record whose `otel.log_data` attribute is a string that fails
JSON parsing is normalized with every structured-data-derived field at its
default, and the failure is local: a batch containing it still parses
successfully whenever its sibling records do. -/
theorem c9_bad_json_is_local (ctx : Ctx) (r : DecodedRecord) (s : String)
    (hA : dictGet r.log_attributes "otel.log_data" = some (.str s))
    (hJ : ctx.jsonLoads s = none) :
    ((parseRecord ctx r).map ParsedLog.level
        = some (if r.severity_text ≠ "" then .str r.severity_text
                else .str "INFO")
    ∧ (parseRecord ctx r).map ParsedLog.function_name = some (.str "unknown")
    ∧ (parseRecord ctx r).map ParsedLog.module' = some (.str "unknown")
    ∧ (parseRecord ctx r).map ParsedLog.duration_ms = some (.float 0)
    ∧ (parseRecord ctx r).map ParsedLog.status = some (.str "unknown")
    ∧ (parseRecord ctx r).map ParsedLog.args = some none
    ∧ (parseRecord ctx r).map ParsedLog.kwargs = some none
    ∧ (parseRecord ctx r).map ParsedLog.result = some none
    ∧ (parseRecord ctx r).map ParsedLog.error = some none
    ∧ (parseRecord ctx r).map ParsedLog.error_type = some none)
    ∧ ∀ pre post, (∀ r' ∈ pre, (parseRecord ctx r').isSome = true)
      → (∀ r' ∈ post, (parseRecord ctx r').isSome = true)
      → ∃ ls, parseProtobufLogs ctx (pre ++ r :: post) = some ls
          ∧ ls.length = pre.length + 1 + post.length := by
  have hO : otelLogData ctx r.log_attributes = some [] := by
    rw [otelLogData, hA]
    show some ((ctx.jsonLoads s).getD []) = some []
    rw [hJ]
    rfl
  constructor
  · rw [parseRecord_eq hO]
    exact ⟨rfl, rfl, rfl, rfl, rfl, rfl, rfl, rfl, rfl, rfl⟩
  · intro pre post hpre hpost
    have hall : ∀ x ∈ pre ++ r :: post, (parseRecord ctx x).isSome = true := by
      intro x hx
      rcases List.mem_append.mp hx with hx | hx
      · exact hpre x hx
      · rcases List.mem_cons.mp hx with hx | hx
        · rw [hx, parseRecord_eq hO]
          rfl
        · exact hpost x hx
    obtain ⟨ls, hls, hlen⟩ := mapM_isSome (parseRecord ctx) (pre ++ r :: post) hall
    refine ⟨ls, hls, ?_⟩
    rw [hlen]
    simp only [List.length_append, List.length_cons]
    try omega

/-- Witness for `c9_bad_json_is_local`: `recBadJson` carries the
unparsable string `"not json"` and decodes with the default level. -/
theorem c9_bad_json_is_local_witness :
    (parseRecord ctxC recBadJson).map ParsedLog.level
      = some (if recBadJson.severity_text ≠ "" then .str recBadJson.severity_text
              else .str "INFO") :=
  (c9_bad_json_is_local ctxC recBadJson "not json" (by decide) (by decide)).1.1

/-! ### Claims about the ingest endpoint -/

/-- C3 counterexample: the request `reqBadGzip` claims gzip encoding while
its body does not start with the gzip magic bytes; the endpoint rejects it
(`gzip.decompress` raises, the inner handler raises HTTP 400 and the outer
handler re-raises it as HTTP 500) instead of passing the raw bytes through
to envelope parsing. -/
theorem c3_counterexample :
    decodeProtobufLogs gzC parsePBC reqBadGzip = .err 500
    ∧ reqBadGzip.content_encoding = "gzip"
    ∧ reqBadGzip.body.take 2 ≠ [31, 139] := by decide

/-- C3 (amended): whenever the Content-Encoding header equals `"gzip"` and
the body does not begin with the gzip magic bytes `0x1f 0x8b`, the call is
rejected: `gzip.decompress` raises, the handler turns this into an
`HTTPException(400)`, and the outer exception handler surfaces it as a 500
response; the body is never passed through to envelope parsing. -/
theorem c3_gzip_mismatch_rejected (gz : List Nat → Option (List Nat))
    (parsePB : List Nat → Option Envelope) (req : IngestRequest)
    (hgz : ∀ b, b.take 2 ≠ [31, 139] → gz b = none)
    (henc : req.content_encoding = "gzip")
    (hmagic : req.body.take 2 ≠ [31, 139]) :
    decodeProtobufLogs gz parsePB req = .err 500 := by
  rw [decodeProtobufLogs, decodeInner]
  simp only [henc, if_pos, hgz req.body hmagic]
  rfl

/-- Witness for `c3_gzip_mismatch_rejected` at a concrete failing
request. -/
theorem c3_gzip_mismatch_rejected_witness :
    decodeProtobufLogs gzC parsePBC
      ⟨"application/octet-stream", "gzip", [7, 7]⟩ = .err 500 :=
  c3_gzip_mismatch_rejected gzC parsePBC _
    (fun b hb => by rw [gzC]; simp only [if_neg hb]) rfl (by decide)

end Otel
